import Mathlib

/-!
# VCC DOB/DOT Violation Tracker — verification of the cache/diff core

Shallow embedding of the change-detection, enrichment, caching and freshness
logic of `src/vorea_violations/app.py` (the multi-tenant Flask variant).

Modelling conventions:

* A Python dict is an association list `Dict α := List (String × α)` whose
  entries are in insertion order; assignment (`d[k] = v`) replaces the value
  in place when the key exists and appends otherwise (`dictInsert`), matching
  CPython's ordered-dict semantics.  The dicts built here never hold duplicate
  keys.
* A violation record (a loosely-typed JSON object of strings) is
  `Rec := Dict String`; `rec.get(k, d)` is `rget`, `rec[k] = v` is `rset`.
* Python string operations are modelled on `List Char`: `.upper()` is
  `pyUpper`, `sub in s` is `pyIn`, `.strip()` is `pyStrip`, `.strip(", ")` is
  `pyStripCS`, `str.join` is `String.intercalate`.
* Network and clock effects are passed in as explicit parameters: the HTTP
  outcome of one upstream request is a `FetchOutcome`, the BIN bulk-address
  lookup is a function argument `binFetch`, ISO-8601 timestamp parsing
  (`datetime.fromisoformat`) is a function argument `parseIso` returning
  seconds as `Option ℚ` (`none` models the parse raising), and the current
  time is a rational number of seconds `now`.
* Fallible code paths (a `KeyError` on an unknown dataset, the enrichment
  loop iterating a non-array payload) return `Option`, with `none` for the
  raised exception.
* `json.dumps` of a flat string dict is modelled as the dict itself
  (`Payload.obj`), an injective encoding of the serialized text.

Python identifiers that start with an underscore are embedded without it
(`_detect_and_save_changes` becomes `detect_and_save_changes`, and so on).
-/

namespace VCC

/-! ## Python dicts as association lists -/

abbrev Dict (α : Type) := List (String × α)

/-- Python `d.get(k)`: the value bound to the first occurrence of `k`. -/
def dictLookup {α : Type} (m : Dict α) (k : String) : Option α :=
  (m.find? (fun p => p.1 == k)).map (fun p => p.2)

/-- Python `d[k] = v`: replace in place if the key exists, else append. -/
def dictInsert {α : Type} (k : String) (v : α) : Dict α → Dict α
  | [] => [(k, v)]
  | p :: rest => if p.1 == k then (k, v) :: rest else p :: dictInsert k v rest

/-- Python `d.get(k, 0)` on a counter dict. -/
def lookupD (m : Dict Nat) (k : String) : Nat := (dictLookup m k).getD 0

/-- Python `d[k] = d.get(k, 0) + n`. -/
def bumpBy (m : Dict Nat) (k : String) (n : Nat) : Dict Nat :=
  dictInsert k (lookupD m k + n) m

/-- The keys of a dict, in order. -/
def dictKeys {α : Type} (m : Dict α) : List String := m.map (fun p => p.1)

/-! ## Python string operations -/

/-- Python `s.upper()` (the status strings involved are ASCII). -/
def pyUpper (s : String) : String := ⟨s.data.map Char.toUpper⟩

/-- Python `sub in s`: substring containment. -/
def pyIn (sub s : String) : Bool := decide (sub.toList <:+: s.toList)

/-- Drop characters satisfying `p` from both ends, as Python `str.strip` does. -/
def stripWhile (p : Char → Bool) (l : List Char) : List Char :=
  ((l.dropWhile p).reverse.dropWhile p).reverse

/-- Python `s.strip()` (whitespace at both ends). -/
def pyStrip (s : String) : String := ⟨stripWhile (fun c => c.isWhitespace) s.data⟩

/-- Python `s.strip(", ")`: commas and spaces removed from both ends. -/
def pyStripCS (s : String) : String :=
  ⟨stripWhile (fun c => c == ',' || c == ' ') s.data⟩

/-- Python `str(d)` for a flat dict of strings, e.g. `str(data)` on an
error-shaped API payload. -/
def pyStrObj (m : Dict String) : String :=
  "\x7b" ++
    String.intercalate ", " (m.map (fun p => "'" ++ p.1 ++ "': '" ++ p.2 ++ "'")) ++
  "\x7d"

/-! ## Records -/

/-- A violation record: a JSON object with string values. -/
abbrev Rec := Dict String

/-- Python `rec.get(k, d)` (with `str(...)` coercion flattened away: all
values in this model are strings). -/
def rget (r : Rec) (k d : String) : String := (dictLookup r k).getD d

/-- Python `rec[k] = v`. -/
def rset (r : Rec) (k v : String) : Rec := dictInsert k v r

/-! ## Static configuration (`DATASETS`, `_TRACKED_FIELDS`, `BORO_NAMES`)

Only the descriptor fields the modelled core reads are embedded; the purely
presentational fields (`display_fields`, `label_map`, `color`, `icon`) and
the HTTP request parameters (`id`, `search_field`, `search_value`,
`timeout`) are not used by any modelled function. -/

structure DsConfig where
  address_fields : List String
  borough_field : String
  status_field : String
  date_field : String
  id_field : String
deriving DecidableEq

def ecbConfig : DsConfig :=
  { address_fields := ["respondent_house_number", "respondent_street"]
    borough_field := "boro"
    status_field := "ecb_violation_status"
    date_field := "issue_date"
    id_field := "ecb_violation_number" }

def oathConfig : DsConfig :=
  { address_fields := ["violation_location_house", "violation_location_street_name"]
    borough_field := "violation_location_borough"
    status_field := "hearing_status"
    date_field := "violation_date"
    id_field := "ticket_number" }

def dotConfig : DsConfig :=
  { address_fields := ["permithousenumber", "onstreetname"]
    borough_field := "boroughname"
    status_field := "permitstatusshortdesc"
    date_field := "issuedworkstartdate"
    id_field := "permitnumber" }

def DATASETS : Dict DsConfig :=
  [("DOB ECB Violations", ecbConfig),
   ("OATH Hearings (DOT / All Agencies)", oathConfig),
   ("DOT Street Construction Permits", dotConfig)]

def allDatasetKeys : List String := dictKeys DATASETS

/-- `_TRACKED_FIELDS`: fields monitored for field-level change detection. -/
def TRACKED_FIELDS : Dict (List String) :=
  [("DOB ECB Violations",
      ["ecb_violation_status", "penality_imposed", "certificate_status"]),
   ("OATH Hearings (DOT / All Agencies)",
      ["hearing_status", "hearing_date", "civil_penalty_must_pay_amount"]),
   ("DOT Street Construction Permits",
      ["permitstatusshortdesc", "expirationdate"])]

/-- Borough code → name mapping for DOB datasets. -/
def BORO_NAMES : Dict String :=
  [("1", "Manhattan"), ("2", "Bronx"), ("3", "Brooklyn"), ("4", "Queens"),
   ("5", "Staten Island"),
   ("MANHATTAN", "Manhattan"), ("BRONX", "Bronx"), ("BROOKLYN", "Brooklyn"),
   ("QUEENS", "Queens"), ("STATEN ISLAND", "Staten Island")]

/-! ## `classify_status` -/

def resolved_kw : List String :=
  ["RESOLVED", "CLOSED", "DISMISSED", "SATISFIED", "PAID IN FULL",
   "COMPLIED", "RESCINDED", "DELETED", "EXPIRE", "NOT GUILTY",
   "IN COMPLIANCE", "PENALTY PAID"]

def open_kw : List String :=
  ["OPEN", "ACTIVE", "PENDING", "OUTSTANDING", "ISSUED", "NEW ISSUANCE",
   "UNRESOLVED", "V-DOB VIOLATION - ACTIVE", "DEFAULT", "GUILTY",
   "SCHEDULED", "IN VIOLATION", "UNPAID", "AMOUNT DUE",
   "CERTIFICATE REJECTED"]

/-- Return the open/resolved/pending classification.  The source loops over
`resolved_kw` first, returning on the first keyword contained in the
uppercased status value, then over `open_kw`; a loop with an early return of
a constant is embedded as `List.any`. -/
def classify_status (record : Rec) (dataset_key : String) : String :=
  let status_field :=
    match dictLookup DATASETS dataset_key with
    | some ds => ds.status_field
    | none => ""
  let status_val := pyUpper (rget record status_field "")
  if resolved_kw.any (fun kw => pyIn kw status_val) then "resolved"
  else if open_kw.any (fun kw => pyIn kw status_val) then "open"
  else "pending"

/-! ## `compute_address` -/

/-- Build a human-readable address string from available fields. -/
def compute_address (record : Rec) (ds_config : DsConfig) : String :=
  let addr_parts := ds_config.address_fields.map (fun f => pyStrip (rget record f ""))
  let addr := String.intercalate " " (addr_parts.filter (fun p => p ≠ ""))
  let boro_raw := pyStrip (rget record ds_config.borough_field "")
  let boro_name := (dictLookup BORO_NAMES boro_raw).getD boro_raw
  let addr2 :=
    if boro_name ≠ "" ∧ pyIn boro_name addr = false then
      (if addr ≠ "" then addr ++ ", " ++ boro_name else boro_name)
    else addr
  pyStripCS addr2

/-- The address computation as the specification describes it: join the
non-empty stripped address components with single spaces, append a comma and
the mapped borough name exactly when that name does not already occur in the
joined string, and trim leftover comma/space artifacts from the ends. -/
def addressSpecC8 (record : Rec) (ds_config : DsConfig) : String :=
  let joined := String.intercalate " "
    ((ds_config.address_fields.map (fun f => pyStrip (rget record f ""))).filter
      (fun p => p ≠ ""))
  let boro_raw := pyStrip (rget record ds_config.borough_field "")
  let boro_name := (dictLookup BORO_NAMES boro_raw).getD boro_raw
  pyStripCS (if pyIn boro_name joined = false then joined ++ ", " ++ boro_name else joined)

/-! ## `_detect_and_save_changes`

The source compares old vs new enriched records and INSERTs one row into
`violation_changes` per detected change; the embedding returns the list of
inserted rows.  A missing cache row is read back as the empty array, so the
"no baseline" guard `if not old_records` is the `old_records.isEmpty` test. -/

/-- A serialized old/new payload: the empty string used for `new` events, or
`json.dumps` of a flat string dict (kept as the dict, an injective encoding). -/
inductive Payload where
  | str (s : String)
  | obj (m : Dict String)
deriving DecidableEq

/-- One row of `violation_changes`, in the column order of the INSERT. -/
structure ChangeEvent where
  domain : String
  source : String
  record_id : String
  change_type : String
  old_value : Payload
  new_value : Payload
  address : String
  description : String
deriving DecidableEq

/-- `{r['_id']: r for r in records if r.get('_id')}`. -/
def buildIdMap (records : List Rec) : Dict Rec :=
  records.foldl
    (fun m r => if rget r "_id" "" ≠ "" then dictInsert (rget r "_id" "") r m else m) []

/-- The loop body of `_detect_and_save_changes` for one entry of the new-id
map: the (zero or one) change rows generated for record id `rid`. -/
def eventsFor (domain source : String) (tracked : List String) (old_map : Dict Rec)
    (rid : String) (rec : Rec) : List ChangeEvent :=
  let addr := rget rec "_address" ""
  let desc := rget rec "_status_val" ""
  match dictLookup old_map rid with
  | none => [⟨domain, source, rid, "new", .str "", .str "", addr, desc⟩]
  | some old =>
    let old_sc := rget old "_status_class" ""
    let new_sc := rget rec "_status_class" ""
    if old_sc ≠ new_sc then
      [⟨domain, source, rid,
        (if new_sc = "resolved" then "resolved" else "status_changed"),
        .obj [("status", old_sc)], .obj [("status", new_sc)], addr, desc⟩]
    else
      let changed := tracked.filter (fun f => rget old f "" ≠ rget rec f "")
      if changed.isEmpty then []
      else [⟨domain, source, rid, "field_changed",
        .obj (changed.map (fun f => (f, rget old f ""))),
        .obj (changed.map (fun f => (f, rget rec f ""))), addr, desc⟩]

/-- Compare old vs new enriched records; return the change rows written to
`violation_changes`. -/
def detect_and_save_changes (domain source : String)
    (old_records new_records : List Rec) : List ChangeEvent :=
  if old_records.isEmpty then []
  else
    let tracked := (dictLookup TRACKED_FIELDS source).getD []
    let old_map := buildIdMap old_records
    let new_map := buildIdMap new_records
    new_map.flatMap (fun p => eventsFor domain source tracked old_map p.1 p.2)

/-! ## `fetch_violations`

The HTTP round trip itself is an external effect; its result is passed in as
a `FetchOutcome`: a decoded JSON array, a decoded JSON object, or a raised
`requests.exceptions.RequestException` (covering transport errors, timeouts,
`raise_for_status` and JSON-decode failures) with its message. -/

inductive FetchOutcome where
  | okArr (records : List Rec)
  | okObj (m : Dict String)
  | err (msg : String)
deriving DecidableEq

/-- The decoded `data` carried by a result envelope. -/
inductive ApiPayload where
  | arr (records : List Rec)
  | obj (m : Dict String)
deriving DecidableEq

/-- Python `len(data)`: length of an array, number of keys of an object. -/
def payloadLen : ApiPayload → Nat
  | .arr records => records.length
  | .obj m => m.length

/-- The result envelope returned by `fetch_violations`. -/
structure FetchResult where
  success : Bool
  data : ApiPayload
  count : Nat
  error : Option String
  source : String
deriving DecidableEq

/-- Fetch violations from NYC Open Data for a given dataset: normalize the
outcome of the request into a `{success, data, count, error?, source}`
envelope; exceptions are caught and never escape. -/
def fetch_violations (outcome : FetchOutcome) (dataset_key : String) : FetchResult :=
  match outcome with
  | .okArr records =>
      { success := true, data := .arr records, count := records.length,
        error := none, source := dataset_key }
  | .okObj m =>
      if (dictLookup m "error").isSome then
        { success := false, data := .arr [], count := 0,
          error := some (pyStrObj m), source := dataset_key }
      else
        { success := true, data := .obj m, count := m.length,
          error := none, source := dataset_key }
  | .err msg =>
      { success := false, data := .arr [], count := 0,
        error := some msg, source := dataset_key }

/-! ## `_enrich_records` -/

/-- The result of `bulk_fetch_building_addresses`: BIN → (house, street,
borough code).  The lookup is a network effect, passed in as `binFetch`. -/
abbrev BinAddrMap := Dict (String × String × String)

/-- Enrich records with computed fields.  `ds_config` is `DATASETS[key]`,
resolved by the caller.  Reads are performed against the progressively
updated record, mirroring the in-place mutation of the source. -/
def enrich_records (binFetch : List String → BinAddrMap) (ds_config : DsConfig)
    (key : String) (records : List Rec) : List Rec :=
  let bin_addr_map : BinAddrMap :=
    if key == "DOB ECB Violations" && !records.isEmpty then
      binFetch (records.map (fun r => rget r "bin" ""))
    else []
  records.map (fun rec =>
    let rec1 := rset rec "_status_class" (classify_status rec key)
    let rec2 := rset rec1 "_id" (rget rec1 ds_config.id_field "")
    let rec3 := rset rec2 "_date"
      (if rget rec2 ds_config.date_field "" ≠ ""
       then (rget rec2 ds_config.date_field "").take 10 else "")
    let rec4 := rset rec3 "_status_val" (rget rec3 ds_config.status_field "N/A")
    let rec5 := rset rec4 "_source" key
    let addr :=
      if key == "DOB ECB Violations" && !bin_addr_map.isEmpty then
        let b := pyStrip (rget rec5 "bin" "")
        match dictLookup bin_addr_map b with
        | some hsb =>
            if b ≠ "" then
              let boro_name := (dictLookup BORO_NAMES hsb.2.2).getD
                ((dictLookup BORO_NAMES (rget rec5 "boro" "")).getD "")
              String.intercalate ", "
                (([pyStrip (hsb.1 ++ " " ++ hsb.2.1), boro_name]).filter (fun p => p ≠ ""))
            else compute_address rec5 ds_config
        | none => compute_address rec5 ds_config
      else compute_address rec5 ds_config
    rset rec5 "_address" addr)

/-! ## `_cache_age_minutes` and the freshness gate -/

/-- One row of the `violation_cache` table for the session's tenant (the
`data_json` blob is kept parsed). -/
structure CacheRow where
  source : String
  data : List Rec
  fetched_at : String
deriving DecidableEq

/-- Return age in minutes from a UTC ISO timestamp string, or 9999 if
invalid.  `parseIso` stands for `datetime.fromisoformat` (returning seconds,
`none` when it raises) and `now` for `datetime.utcnow()` in seconds. -/
def cache_age_minutes (parseIso : String → Option ℚ) (now : ℚ)
    (fetched_at_str : String) : ℚ :=
  match parseIso (fetched_at_str.replace "Z" "") with
  | some fetched_at => (now - fetched_at) / 60
  | none => 9999

/-- Python `max(iterable, default=d)`. -/
def pyMax (xs : List ℚ) (dflt : ℚ) : ℚ :=
  match xs with
  | [] => dflt
  | x :: rest => rest.foldl max x

/-- Lexicographic (code-point) comparison of strings, as Python `<`. -/
def strLtAux : List Char → List Char → Bool
  | [], [] => false
  | [], _ :: _ => true
  | _ :: _, [] => false
  | a :: as, b :: bs =>
      if a.val < b.val then true
      else if b.val < a.val then false
      else strLtAux as bs

/-- Python `a < b` on strings. -/
def pyStrLt (a b : String) : Bool := strLtAux a.data b.data

/-- Python `min(iterable)` over strings (raises on an empty iterable, hence
`Option`); ties keep the earlier element. -/
def pyMinStr (xs : List String) : Option String :=
  match xs with
  | [] => none
  | x :: rest => some (rest.foldl (fun a b => if pyStrLt b a then b else a) x)

/-- `{r['source']: r for r in cache_rows}`. -/
def buildCacheMap (cache_rows : List CacheRow) : Dict CacheRow :=
  cache_rows.foldl (fun m r => dictInsert r.source r m) []

/-- The freshness decision of `/api/all`: all sources cached, oldest entry at
most 1440 minutes old, and no force flag. -/
def useCacheB (parseIso : String → Option ℚ) (now : ℚ)
    (cache_rows : List CacheRow) (force_refresh : Bool) : Bool :=
  let all_cached := (buildCacheMap cache_rows).length == DATASETS.length
  let oldest_age :=
    pyMax (cache_rows.map (fun r => cache_age_minutes parseIso now r.fetched_at)) 9999
  !force_refresh && all_cached && decide (oldest_age ≤ 1440)

/-! ## `_refresh_domain` -/

/-- `SELECT ... FROM violation_cache WHERE source=? AND domain=?` for the
fixed tenant. -/
def dbLookup (db : List CacheRow) (key : String) : Option CacheRow :=
  db.find? (fun r => r.source == key)

/-- `INSERT OR REPLACE INTO violation_cache` keyed by (source, domain),
stamping `fetched_at` with `CURRENT_TIMESTAMP` (the `nowTs` parameter). -/
def dbUpsert (key : String) (data : List Rec) (nowTs : String) :
    List CacheRow → List CacheRow
  | [] => [⟨key, data, nowTs⟩]
  | r :: rest =>
      if r.source == key then ⟨key, data, nowTs⟩ :: rest
      else r :: dbUpsert key data nowTs rest

/-- The records the enrichment loop iterates for a successful fetch: the
decoded array, or nothing for an (empty) object payload. -/
def successRecords : ApiPayload → List Rec
  | .arr records => records
  | .obj _ => []

/-- `json.loads(old_row['data_json']) if old_row and old_row['data_json']
else []`: the prior cached array, empty when the dataset was never cached. -/
def cachedData (db : List CacheRow) (key : String) : List Rec :=
  match dbLookup db key with
  | some row => row.data
  | none => []

/-- The payloads the refresh loop survives: a decoded array, a raised
request exception, or an object that is error-shaped or empty (a non-empty
object without an "error" key would crash the enrichment loop). -/
def wellFormedOutcome : FetchOutcome → Prop
  | .okObj m => (dictLookup m "error").isSome = true ∨ m = []
  | _ => True

/-- The per-dataset loop of `_refresh_domain` over the remaining dataset
keys, threading the cache table and the appended change rows.  A successful
fetch is enriched, diffed against the prior cache entry and upserted; a
failed fetch only logs and leaves the cache unchanged.  `none` models an
exception: an unknown dataset key (`KeyError`), or the enrichment loop
iterating a non-empty object payload (`AttributeError`); iterating an empty
object yields no records.  Daily snapshot writes are not modelled. -/
def refreshKeys (fetch : String → FetchOutcome) (binFetch : List String → BinAddrMap)
    (domain nowTs : String) :
    List String → List CacheRow × List ChangeEvent →
    Option (List CacheRow × List ChangeEvent)
  | [], st => some st
  | key :: rest, st =>
    let old_enriched := cachedData st.1 key
    let result := fetch_violations (fetch key) key
    if result.success then
      match dictLookup DATASETS key with
      | none => none
      | some ds_config =>
        match result.data with
        | .arr records =>
            let enriched := enrich_records binFetch ds_config key records
            refreshKeys fetch binFetch domain nowTs rest
              (dbUpsert key enriched nowTs st.1,
               st.2 ++ detect_and_save_changes domain key old_enriched enriched)
        | .obj m =>
            if m.isEmpty then
              let enriched := enrich_records binFetch ds_config key []
              refreshKeys fetch binFetch domain nowTs rest
                (dbUpsert key enriched nowTs st.1,
                 st.2 ++ detect_and_save_changes domain key old_enriched enriched)
            else none
    else refreshKeys fetch binFetch domain nowTs rest st

/-- Fetch all datasets for a single domain, update cache + change log. -/
def refresh_domain (fetch : String → FetchOutcome)
    (binFetch : List String → BinAddrMap) (domain nowTs : String)
    (db : List CacheRow) : Option (List CacheRow × List ChangeEvent) :=
  refreshKeys fetch binFetch domain nowTs allDatasetKeys (db, [])

/-! ## `/api/all` (`get_all_violations`) -/

/-- `summary["by_source"][key]`: `{"count": len(enriched), **source_counts}`. -/
structure SrcSummary where
  count : Nat
  counts : Dict Nat
deriving DecidableEq

/-- `{"open": 0, "resolved": 0, "pending": 0}`. -/
def initStatusCounts : Dict Nat := [("open", 0), ("resolved", 0), ("pending", 0)]

/-- The numeric entries of the summary dict before the loop runs. -/
def initSummaryCounts : Dict Nat :=
  [("total", 0), ("open", 0), ("resolved", 0), ("pending", 0)]

/-- The per-record body of the summary loop: bump this source's counter and
the overall counter for the record's status class. -/
def tallyStep (st : Dict Nat × Dict Nat) (rec : Rec) : Dict Nat × Dict Nat :=
  let s := rget rec "_status_class" "pending"
  (bumpBy st.1 s 1, bumpBy st.2 s 1)

/-- Tally one source's records: returns (source_counts, updated summary
counters). -/
def tallyRecords (recs : List Rec) (summaryCounts : Dict Nat) : Dict Nat × Dict Nat :=
  recs.foldl tallyStep (initStatusCounts, summaryCounts)

/-- The per-source body of the response-building loop shared by both
branches of `/api/all` (serve-from-cache and after-refresh): accumulate
`all_results`, the summary counters (including `summary["total"]`) and
`summary["by_source"]`. -/
def serveStep (st : Dict (List Rec) × Dict Nat × Dict SrcSummary)
    (kr : String × List Rec) : Dict (List Rec) × Dict Nat × Dict SrcSummary :=
  let t := tallyRecords kr.2 st.2.1
  (dictInsert kr.1 kr.2 st.1,
   bumpBy t.2 "total" kr.2.length,
   dictInsert kr.1 ⟨kr.2.length, t.1⟩ st.2.2)

/-- Build `all_results` and the summary from (source, enriched array) pairs. -/
def serveRows (rows : List (String × List Rec)) :
    Dict (List Rec) × Dict Nat × Dict SrcSummary :=
  rows.foldl serveStep ([], initSummaryCounts, [])

/-- A small three-dataset cache table used to exercise the fresh-cache path
on concrete data. -/
def sampleCacheRows : List CacheRow :=
  [⟨"DOB ECB Violations", [[("_status_class", "open")]], "2024-01-01 00:00:00"⟩,
   ⟨"OATH Hearings (DOT / All Agencies)", [[("_status_class", "resolved")]],
      "2024-01-01 00:05:00"⟩,
   ⟨"DOT Street Construction Permits", [], "2024-01-01 00:10:00"⟩]

/-- The JSON body of `/api/all`. -/
structure AllResponse where
  results : Dict (List Rec)
  summary_counts : Dict Nat
  by_source : Dict SrcSummary
  from_cache : Bool
  cached_at : Option String
deriving DecidableEq

/-- Serve from DB cache if fresh (at most 24 h old); otherwise live-fetch
every dataset, detect changes and serve the freshly written cache.  The
boolean of the pair records whether the live-fetch branch ran; `none`
models an exception escaping the refresh. -/
def get_all_violations (parseIso : String → Option ℚ) (now : ℚ) (nowTs : String)
    (fetch : String → FetchOutcome) (binFetch : List String → BinAddrMap)
    (domain : String) (cache_rows : List CacheRow) (force_refresh : Bool) :
    Option (Bool × AllResponse) :=
  let cache_map := buildCacheMap cache_rows
  if useCacheB parseIso now cache_rows force_refresh then
    let st := serveRows (cache_map.map (fun p => (p.1, p.2.data)))
    some (false, ⟨st.1, st.2.1, st.2.2, true,
                  pyMinStr (cache_rows.map (fun r => r.fetched_at))⟩)
  else
    match refresh_domain fetch binFetch domain nowTs cache_rows with
    | none => none
    | some pr =>
      let st := serveRows (pr.1.map (fun r => (r.source, r.data)))
      some (true, ⟨st.1, st.2.1, st.2.2, false, none⟩)

/-! ## Specification-side tallies (used only in theorem statements) -/

/-- The number of records of `recs` whose status class is `c` (a missing
`_status_class` counts as "pending", as in the summary loop's `rec.get`). -/
def countClass (c : String) (recs : List Rec) : Nat :=
  (recs.filter (fun r => rget r "_status_class" "pending" == c)).length

/-- Total tally of status class `c` across a list of (source, records). -/
def sumCounts (c : String) (rows : List (String × List Rec)) : Nat :=
  (rows.map (fun kr => countClass c kr.2)).sum

/-- Total record count across a list of (source, records). -/
def sumLens (rows : List (String × List Rec)) : Nat :=
  (rows.map (fun kr => kr.2.length)).sum

/-! ## Helper lemmas about the dict model -/

theorem dictKeys_cons {α : Type} (p : String × α) (m : Dict α) :
    dictKeys (p :: m) = p.1 :: dictKeys m := rfl

theorem dictLookup_cons {α : Type} (p : String × α) (m : Dict α) (k : String) :
    dictLookup (p :: m) k = if p.1 = k then some p.2 else dictLookup m k := by
  by_cases h : p.1 = k
  · rw [if_pos h]
    unfold dictLookup
    rw [List.find?_cons_of_pos _ (by simp [h])]
    rfl
  · rw [if_neg h]
    unfold dictLookup
    rw [List.find?_cons_of_neg _ (by simp [h])]

theorem dictLookup_dictInsert {α : Type} (m : Dict α) (k k' : String) (v : α) :
    dictLookup (dictInsert k v m) k' = if k' = k then some v else dictLookup m k' := by
  induction m with
  | nil =>
    show dictLookup [(k, v)] k' = _
    rw [dictLookup_cons]
    by_cases h : k' = k
    · simp [h]
    · rw [if_neg (fun hh => h hh.symm), if_neg h]
  | cons p rest ih =>
    by_cases hp : p.1 = k
    · have h1 : dictInsert k v (p :: rest) = (k, v) :: rest := by
        simp [dictInsert, hp]
      rw [h1, dictLookup_cons, dictLookup_cons]
      by_cases h : k' = k
      · rw [if_pos h, if_pos h.symm]
      · rw [if_neg (fun hh => h hh.symm), if_neg h,
            if_neg (fun hh => h ((hp.symm.trans hh).symm))]
    · have h1 : dictInsert k v (p :: rest) = p :: dictInsert k v rest := by
        simp [dictInsert, hp]
      rw [h1, dictLookup_cons, dictLookup_cons, ih]
      by_cases hpk : p.1 = k'
      · rw [if_pos hpk, if_pos hpk,
            if_neg (fun hh : k' = k => hp (hpk.trans hh))]
      · rw [if_neg hpk, if_neg hpk]

theorem dictKeys_dictInsert {α : Type} (m : Dict α) (k : String) (v : α) :
    dictKeys (dictInsert k v m) =
      if k ∈ dictKeys m then dictKeys m else dictKeys m ++ [k] := by
  induction m with
  | nil => simp [dictInsert, dictKeys]
  | cons p rest ih =>
    by_cases hp : p.1 = k
    · have h1 : dictInsert k v (p :: rest) = (k, v) :: rest := by
        simp [dictInsert, hp]
      have h2 : k ∈ dictKeys (p :: rest) := by
        rw [dictKeys_cons, hp]
        exact List.mem_cons_self _ _
      rw [h1, if_pos h2, dictKeys_cons, dictKeys_cons, hp]
    · have h1 : dictInsert k v (p :: rest) = p :: dictInsert k v rest := by
        simp [dictInsert, hp]
      rw [h1, dictKeys_cons]
      by_cases hk : k ∈ dictKeys rest
      · have h2 : k ∈ dictKeys (p :: rest) := by
          rw [dictKeys_cons]
          exact List.mem_cons_of_mem _ hk
        rw [if_pos h2, ih, if_pos hk, dictKeys_cons]
      · have h2 : k ∉ dictKeys (p :: rest) := by
          rw [dictKeys_cons]
          intro hmem
          rcases List.mem_cons.mp hmem with h | h
          · exact hp h.symm
          · exact hk h
        rw [if_neg h2, ih, if_neg hk, dictKeys_cons]
        rfl

theorem dictKeys_dictInsert_nodup {α : Type} (m : Dict α) (k : String) (v : α)
    (h : (dictKeys m).Nodup) : (dictKeys (dictInsert k v m)).Nodup := by
  rw [dictKeys_dictInsert]
  by_cases hk : k ∈ dictKeys m
  · rwa [if_pos hk]
  · rw [if_neg hk]
    refine List.Nodup.append h (List.nodup_singleton k) ?_
    intro a ha hb
    rw [List.mem_singleton] at hb
    exact hk (hb ▸ ha)

theorem mem_dictKeys_of_lookup {α : Type} (m : Dict α) (k : String) (v : α)
    (h : dictLookup m k = some v) : k ∈ dictKeys m := by
  induction m with
  | nil => simp [dictLookup] at h
  | cons p rest ih =>
    rw [dictLookup_cons] at h
    by_cases hp : p.1 = k
    · rw [dictKeys_cons, hp]
      exact List.mem_cons_self _ _
    · rw [if_neg hp] at h
      rw [dictKeys_cons]
      exact List.mem_cons_of_mem _ (ih h)

theorem lookup_mem {α : Type} (m : Dict α) (k : String) (v : α)
    (h : dictLookup m k = some v) : (k, v) ∈ m := by
  induction m with
  | nil => simp [dictLookup] at h
  | cons p rest ih =>
    rw [dictLookup_cons] at h
    by_cases hp : p.1 = k
    · rw [if_pos hp, Option.some.injEq] at h
      have : p = (k, v) := by
        cases p
        simp only [Prod.mk.injEq]
        exact ⟨hp, h⟩
      rw [this] at *
      exact List.mem_cons_self _ _
    · rw [if_neg hp] at h
      exact List.mem_cons_of_mem _ (ih h)

/-- A `flatMap` all of whose pieces are empty is empty. -/
theorem flatMap_eq_nil_of_forall {α β : Type} (l : List α) (f : α → List β)
    (h : ∀ x ∈ l, f x = []) : l.flatMap f = [] := by
  induction l with
  | nil => rfl
  | cons x rest ih =>
    simp only [List.flatMap_cons, h x (List.mem_cons_self x rest), List.nil_append]
    exact ih (fun y hy => h y (List.mem_cons_of_mem x hy))

/-- `flatMap` over a dict with nodup keys, where only the entry at `k`
contributes. -/
theorem flatMap_eq_of_lookup {α β : Type} (m : Dict α) (g : String → α → List β)
    (k : String) (v : α) (hnd : (dictKeys m).Nodup) (hl : dictLookup m k = some v)
    (hz : ∀ p ∈ m, p.1 ≠ k → g p.1 p.2 = []) :
    m.flatMap (fun p => g p.1 p.2) = g k v := by
  induction m with
  | nil => simp [dictLookup] at hl
  | cons p rest ih =>
    rw [dictLookup_cons] at hl
    rw [dictKeys_cons, List.nodup_cons] at hnd
    by_cases hp : p.1 = k
    · rw [if_pos hp, Option.some.injEq] at hl
      have hrest : ∀ q ∈ rest, g q.1 q.2 = [] := by
        intro q hq
        refine hz q (List.mem_cons_of_mem p hq) (fun hqk => ?_)
        refine hnd.1 ?_
        rw [hp]
        rw [← hqk]
        exact List.mem_map_of_mem (fun r => r.1) hq
      rw [List.flatMap_cons, flatMap_eq_nil_of_forall rest _ hrest, List.append_nil,
          hp, hl]
    · rw [if_neg hp] at hl
      have h0 : g p.1 p.2 = [] := hz p (List.mem_cons_self p rest) hp
      rw [List.flatMap_cons, h0, List.nil_append]
      exact ih hnd.2 hl (fun q hq => hz q (List.mem_cons_of_mem p hq))

/-! ## Lemmas about the id maps of the change detector -/

theorem buildIdMap_go_nodup (records : List Rec) (m : Dict Rec)
    (h : (dictKeys m).Nodup) :
    (dictKeys (records.foldl
      (fun m r => if rget r "_id" "" ≠ "" then dictInsert (rget r "_id" "") r m else m)
      m)).Nodup := by
  induction records generalizing m with
  | nil => simpa using h
  | cons r rest ih =>
    rw [List.foldl_cons]
    refine ih _ ?_
    by_cases hc : rget r "_id" "" ≠ ""
    · rw [if_pos hc]
      exact dictKeys_dictInsert_nodup _ _ _ h
    · rwa [if_neg hc]

theorem buildIdMap_keys_nodup (records : List Rec) :
    (dictKeys (buildIdMap records)).Nodup :=
  buildIdMap_go_nodup records [] (by simp [dictKeys])

theorem buildIdMap_go_keys_ne (records : List Rec) (m : Dict Rec)
    (h : ∀ k ∈ dictKeys m, k ≠ "") :
    ∀ k ∈ dictKeys (records.foldl
      (fun m r => if rget r "_id" "" ≠ "" then dictInsert (rget r "_id" "") r m else m)
      m), k ≠ "" := by
  induction records generalizing m with
  | nil => simpa using h
  | cons r rest ih =>
    rw [List.foldl_cons]
    refine ih _ ?_
    by_cases hc : rget r "_id" "" ≠ ""
    · rw [if_pos hc]
      intro k hk
      rw [dictKeys_dictInsert] at hk
      by_cases hm : rget r "_id" "" ∈ dictKeys m
      · rw [if_pos hm] at hk
        exact h k hk
      · rw [if_neg hm] at hk
        rcases List.mem_append.mp hk with hk | hk
        · exact h k hk
        · rw [List.mem_singleton] at hk
          rw [hk]
          exact hc
    · rwa [if_neg hc]

theorem buildIdMap_keys_ne (records : List Rec) :
    ∀ p ∈ buildIdMap records, p.1 ≠ "" := by
  intro p hp
  exact buildIdMap_go_keys_ne records [] (by simp [dictKeys]) p.1
    (List.mem_map_of_mem (fun q => q.1) hp)

/-! ## Lemmas about `eventsFor` -/

theorem eventsFor_record_id (d s : String) (t : List String) (om : Dict Rec)
    (k : String) (r : Rec) : ∀ e ∈ eventsFor d s t om k r, e.record_id = k := by
  intro e he
  simp only [eventsFor] at he
  cases hl : dictLookup om k with
  | none =>
    rw [hl] at he
    dsimp only at he
    rw [List.mem_singleton] at he
    rw [he]
  | some old =>
    rw [hl] at he
    dsimp only at he
    by_cases h1 : rget old "_status_class" "" ≠ rget r "_status_class" ""
    · rw [if_pos h1, List.mem_singleton] at he
      rw [he]
    · rw [if_neg h1] at he
      by_cases h2 : (t.filter (fun f => rget old f "" ≠ rget r f "")).isEmpty
      · rw [if_pos h2] at he
        exact absurd he (List.not_mem_nil e)
      · rw [if_neg h2, List.mem_singleton] at he
        rw [he]

theorem eventsFor_filter (d s : String) (t : List String) (om : Dict Rec)
    (k r_id : String) (r : Rec) :
    (eventsFor d s t om k r).filter (fun e => e.record_id == r_id) =
      if k = r_id then eventsFor d s t om k r else [] := by
  by_cases h : k = r_id
  · rw [if_pos h]
    refine List.filter_eq_self.mpr ?_
    intro e he
    rw [eventsFor_record_id d s t om k r e he, h]
    exact beq_self_eq_true r_id
  · rw [if_neg h]
    refine List.filter_eq_nil_iff.mpr ?_
    intro e he
    rw [eventsFor_record_id d s t om k r e he]
    simp [h]

/-- Filtering the change rows down to one record id that occurs in the new
id map isolates that id's `eventsFor` contribution. -/
theorem detect_filter_eq (domain source r_id : String) (oldR newR : List Rec)
    (n : Rec) (hn : dictLookup (buildIdMap newR) r_id = some n) (hne : oldR ≠ []) :
    (detect_and_save_changes domain source oldR newR).filter
        (fun e => e.record_id == r_id) =
      eventsFor domain source ((dictLookup TRACKED_FIELDS source).getD [])
        (buildIdMap oldR) r_id n := by
  have hempty : oldR.isEmpty = false := by
    cases oldR with
    | nil => exact absurd rfl hne
    | cons a l => rfl
  simp only [detect_and_save_changes, hempty, Bool.false_eq_true, if_false]
  rw [List.filter_flatMap]
  have hfun : (fun p : String × Rec =>
      (eventsFor domain source ((dictLookup TRACKED_FIELDS source).getD [])
        (buildIdMap oldR) p.1 p.2).filter (fun e => e.record_id == r_id)) =
      (fun p : String × Rec =>
        if p.1 = r_id then
          eventsFor domain source ((dictLookup TRACKED_FIELDS source).getD [])
            (buildIdMap oldR) p.1 p.2
        else []) :=
    funext (fun p => eventsFor_filter domain source _ (buildIdMap oldR) p.1 r_id p.2)
  rw [hfun]
  rw [flatMap_eq_of_lookup (buildIdMap newR)
    (fun k v => if k = r_id then
        eventsFor domain source ((dictLookup TRACKED_FIELDS source).getD [])
          (buildIdMap oldR) k v
      else [])
    r_id n (buildIdMap_keys_nodup newR) hn
    (fun p _ hne' => if_neg hne')]
  rw [if_pos rfl]

/-! ## The claims -/

/-- C1: for every record and configured dataset, the classifier uppercases
the dataset's status-field value and returns "resolved" exactly when some
resolved keyword occurs as a substring, "open" exactly when no resolved
keyword but some open keyword occurs, and "pending" exactly when neither
list matches; the resolved list takes priority over the open list. -/
theorem claimC1_classify_status (record : Rec) (dataset_key : String) (ds : DsConfig)
    (h : dictLookup DATASETS dataset_key = some ds) :
    (classify_status record dataset_key = "resolved" ↔
      ∃ kw ∈ resolved_kw, pyIn kw (pyUpper (rget record ds.status_field "")) = true) ∧
    (classify_status record dataset_key = "open" ↔
      ((¬ ∃ kw ∈ resolved_kw, pyIn kw (pyUpper (rget record ds.status_field "")) = true) ∧
       ∃ kw ∈ open_kw, pyIn kw (pyUpper (rget record ds.status_field "")) = true)) ∧
    (classify_status record dataset_key = "pending" ↔
      ((¬ ∃ kw ∈ resolved_kw, pyIn kw (pyUpper (rget record ds.status_field "")) = true) ∧
       ¬ ∃ kw ∈ open_kw, pyIn kw (pyUpper (rget record ds.status_field "")) = true)) := by
  have hcs : classify_status record dataset_key =
      (if resolved_kw.any (fun kw => pyIn kw (pyUpper (rget record ds.status_field ""))) then
        "resolved"
      else if open_kw.any (fun kw => pyIn kw (pyUpper (rget record ds.status_field ""))) then
        "open"
      else "pending") := by
    simp only [classify_status, h]
  rw [hcs]
  by_cases h1 : resolved_kw.any (fun kw => pyIn kw (pyUpper (rget record ds.status_field ""))) = true
  · rw [List.any_eq_true] at h1
    simp [h1]
  · rw [List.any_eq_true] at h1
    by_cases h2 : open_kw.any (fun kw => pyIn kw (pyUpper (rget record ds.status_field ""))) = true
    · rw [List.any_eq_true] at h2
      simp [h1, h2, List.any_eq_true]
    · rw [List.any_eq_true] at h2
      simp [h1, h2, List.any_eq_true]

/-- Witness for C1 at a concrete record of the ECB dataset whose status
matches both keyword lists ("DISMISSED" and "ISSUED"): resolved wins. -/
theorem claimC1_witness :
    classify_status [("ecb_violation_status", "Issued but Dismissed")]
      "DOB ECB Violations" = "resolved" :=
  (claimC1_classify_status [("ecb_violation_status", "Issued but Dismissed")]
    "DOB ECB Violations" ecbConfig rfl).1.mpr (by decide)

/-- C2: with an empty (or missing, read back as empty) prior cached array,
the change detector emits no change rows at all, whatever the new array
contains. -/
theorem claimC2_no_baseline (domain source : String) (new_records : List Rec) :
    detect_and_save_changes domain source [] new_records = [] := rfl

/-- C3: a record id present in both id maps whose status class differs gets
exactly one change row: type "resolved" when the new class is "resolved",
else "status_changed", with payloads carrying only the old and new status
class. -/
theorem claimC3_status_change (domain source r_id : String)
    (oldR newR : List Rec) (o n : Rec)
    (ho : dictLookup (buildIdMap oldR) r_id = some o)
    (hn : dictLookup (buildIdMap newR) r_id = some n)
    (hdiff : rget o "_status_class" "" ≠ rget n "_status_class" "") :
    (detect_and_save_changes domain source oldR newR).filter
        (fun e => e.record_id == r_id) =
      [⟨domain, source, r_id,
        (if rget n "_status_class" "" = "resolved" then "resolved" else "status_changed"),
        .obj [("status", rget o "_status_class" "")],
        .obj [("status", rget n "_status_class" "")],
        rget n "_address" "", rget n "_status_val" ""⟩] := by
  have hne : oldR ≠ [] := by
    intro hnil
    rw [hnil] at ho
    simp [buildIdMap, dictLookup] at ho
  rw [detect_filter_eq domain source r_id oldR newR n hn hne]
  simp only [eventsFor, ho]
  rw [if_pos hdiff]

/-- Witness for C3: an open→resolved transition yields one "resolved" row. -/
theorem claimC3_witness :
    (detect_and_save_changes "d" "DOT Street Construction Permits"
        [[("_id", "A"), ("_status_class", "open")]]
        [[("_id", "A"), ("_status_class", "resolved"), ("_address", "10 Main St"),
          ("_status_val", "CLOSED")]]).filter (fun e => e.record_id == "A") =
      [⟨"d", "DOT Street Construction Permits", "A", "resolved",
        .obj [("status", "open")], .obj [("status", "resolved")],
        "10 Main St", "CLOSED"⟩] := by
  have h := claimC3_status_change "d" "DOT Street Construction Permits" "A"
    [[("_id", "A"), ("_status_class", "open")]]
    [[("_id", "A"), ("_status_class", "resolved"), ("_address", "10 Main St"),
      ("_status_val", "CLOSED")]]
    [("_id", "A"), ("_status_class", "open")]
    [("_id", "A"), ("_status_class", "resolved"), ("_address", "10 Main St"),
      ("_status_val", "CLOSED")]
    (by decide) (by decide) (by decide)
  rw [h]
  decide

/-- C4: a record id present in both id maps with an unchanged status class
gets a "field_changed" row exactly when some tracked field of the dataset
differs between old and new, its payloads listing precisely the differing
tracked fields with their old resp. new values. -/
theorem claimC4_field_change (domain source r_id : String)
    (oldR newR : List Rec) (o n : Rec)
    (ho : dictLookup (buildIdMap oldR) r_id = some o)
    (hn : dictLookup (buildIdMap newR) r_id = some n)
    (hsame : rget o "_status_class" "" = rget n "_status_class" "") :
    (detect_and_save_changes domain source oldR newR).filter
        (fun e => e.record_id == r_id) =
      (if ((dictLookup TRACKED_FIELDS source).getD []).filter
            (fun f => rget o f "" ≠ rget n f "") = [] then []
       else
        [⟨domain, source, r_id, "field_changed",
          .obj ((((dictLookup TRACKED_FIELDS source).getD []).filter
            (fun f => rget o f "" ≠ rget n f "")).map (fun f => (f, rget o f ""))),
          .obj ((((dictLookup TRACKED_FIELDS source).getD []).filter
            (fun f => rget o f "" ≠ rget n f "")).map (fun f => (f, rget n f ""))),
          rget n "_address" "", rget n "_status_val" ""⟩]) := by
  have hne : oldR ≠ [] := by
    intro hnil
    rw [hnil] at ho
    simp [buildIdMap, dictLookup] at ho
  rw [detect_filter_eq domain source r_id oldR newR n hn hne]
  simp only [eventsFor, ho]
  rw [if_neg (fun hc => hc hsame)]
  by_cases hch : ((dictLookup TRACKED_FIELDS source).getD []).filter
      (fun f => rget o f "" ≠ rget n f "") = []
  · rw [if_pos hch, if_pos (by rw [hch]; rfl)]
  · rw [if_neg hch, if_neg (fun hemp => hch (List.isEmpty_iff.mp hemp))]

/-- Witness for C4: a tracked permit-status field changing from ISSUED to
EXPIRED with an unchanged status class yields one "field_changed" row. -/
theorem claimC4_witness :
    (detect_and_save_changes "d" "DOT Street Construction Permits"
        [[("_id", "A"), ("_status_class", "open"), ("permitstatusshortdesc", "ISSUED")]]
        [[("_id", "A"), ("_status_class", "open"),
          ("permitstatusshortdesc", "EXPIRED")]]).filter
        (fun e => e.record_id == "A") =
      [⟨"d", "DOT Street Construction Permits", "A", "field_changed",
        .obj [("permitstatusshortdesc", "ISSUED")],
        .obj [("permitstatusshortdesc", "EXPIRED")], "", ""⟩] := by
  have h := claimC4_field_change "d" "DOT Street Construction Permits" "A"
    [[("_id", "A"), ("_status_class", "open"), ("permitstatusshortdesc", "ISSUED")]]
    [[("_id", "A"), ("_status_class", "open"), ("permitstatusshortdesc", "EXPIRED")]]
    [("_id", "A"), ("_status_class", "open"), ("permitstatusshortdesc", "ISSUED")]
    [("_id", "A"), ("_status_class", "open"), ("permitstatusshortdesc", "EXPIRED")]
    (by decide) (by decide) (by decide)
  rw [h]
  decide

/-- C9: the id maps only hold records with a non-empty `_id`, so no change
row of any type ever carries an empty record id — records with a missing or
empty id are invisible to change detection. -/
theorem claimC9_empty_id_excluded (domain source : String) (oldR newR : List Rec) :
    (detect_and_save_changes domain source oldR newR).filter
      (fun e => e.record_id == "") = [] := by
  by_cases he : oldR.isEmpty
  · simp only [detect_and_save_changes, he, if_true]
    rfl
  · simp only [detect_and_save_changes, he, Bool.false_eq_true, if_false]
    rw [List.filter_flatMap]
    refine flatMap_eq_nil_of_forall _ _ ?_
    intro p hp
    rw [eventsFor_filter]
    exact if_neg (buildIdMap_keys_ne newR p hp)

/-! ## C8: address computation -/

theorem pyIn_empty (s : String) : pyIn "" s = true := by
  rw [pyIn, decide_eq_true_eq]
  exact List.nil_infix

theorem stripWhile_cons_of_pos (p : Char → Bool) (c : Char) (l : List Char)
    (h : p c = true) : stripWhile p (c :: l) = stripWhile p l := by
  simp only [stripWhile, List.dropWhile_cons, h, if_true]

theorem pyStripCS_comma_space (s : String) : pyStripCS (", " ++ s) = pyStripCS s := by
  simp only [pyStripCS]
  have hdata : (", " ++ s).data = ',' :: ' ' :: s.data := by
    rw [String.data_append]
    rfl
  rw [hdata, stripWhile_cons_of_pos _ _ _ (by decide),
      stripWhile_cons_of_pos _ _ _ (by decide)]

/-- The branchy source computation and the specification's description agree
for any pair of joined address and borough name. -/
theorem addr_branch_eq (addr boro : String) :
    pyStripCS (if boro ≠ "" ∧ pyIn boro addr = false then
                 (if addr ≠ "" then addr ++ ", " ++ boro else boro)
               else addr) =
    pyStripCS (if pyIn boro addr = false then addr ++ ", " ++ boro else addr) := by
  by_cases hin : pyIn boro addr = false
  · have hb : boro ≠ "" := by
      intro hbe
      rw [hbe, pyIn_empty] at hin
      exact absurd hin (by decide)
    rw [if_pos ⟨hb, hin⟩, if_pos hin]
    by_cases ha : addr ≠ ""
    · rw [if_pos ha]
    · have ha' : addr = "" := by
        by_contra hc
        exact ha hc
      rw [if_neg ha, ha']
      have h2 : ("" : String) ++ ", " ++ boro = ", " ++ boro := by
        have : ("" : String) ++ ", " = ", " := by decide
        rw [this]
      rw [h2, pyStripCS_comma_space]
  · rw [if_neg (fun hc => hin hc.2), if_neg hin]

/-- C8: the computed address is exactly the specification's description —
the non-empty stripped address components joined by single spaces, with a
comma and the mapped borough name appended exactly when that name is not
already a substring of the joined string (so an already-present borough is
never duplicated), and leftover comma/space artifacts trimmed. -/
theorem claimC8_compute_address (record : Rec) (ds_config : DsConfig) :
    compute_address record ds_config = addressSpecC8 record ds_config := by
  simp only [compute_address, addressSpecC8]
  exact addr_branch_eq _ _

/-! ## C7: the fetch result envelope -/

/-- C7: every upstream failure — a raised transport/timeout/decode error or
an error-shaped JSON object — is normalized into a `success=false` envelope
carrying the underlying message, an empty data array and a zero count; the
(total) function never propagates the fault.  -/
theorem claimC7_fetch_envelope (outcome : FetchOutcome) (dataset_key : String)
    (h : (∃ msg, outcome = .err msg) ∨
         (∃ m, outcome = .okObj m ∧ (dictLookup m "error").isSome)) :
    (fetch_violations outcome dataset_key).success = false ∧
    (fetch_violations outcome dataset_key).data = .arr [] ∧
    (fetch_violations outcome dataset_key).count = 0 ∧
    (∀ msg, outcome = .err msg →
      (fetch_violations outcome dataset_key).error = some msg) ∧
    (∀ m, outcome = .okObj m →
      (fetch_violations outcome dataset_key).error = some (pyStrObj m)) := by
  rcases h with ⟨msg, rfl⟩ | ⟨m, rfl, herr⟩
  · refine ⟨rfl, rfl, rfl, ?_, ?_⟩
    · intro msg' hx
      injection hx with hm
      rw [hm]
      rfl
    · intro m hx
      exact FetchOutcome.noConfusion hx
  · have hunf : fetch_violations (.okObj m) dataset_key =
        { success := false, data := .arr [], count := 0,
          error := some (pyStrObj m), source := dataset_key } := by
      simp only [fetch_violations, herr, if_true]
    refine ⟨?_, ?_, ?_, ?_, ?_⟩
    · rw [hunf]
    · rw [hunf]
    · rw [hunf]
    · intro msg' hx
      exact FetchOutcome.noConfusion hx
    · intro m' hx
      injection hx with hm
      rw [hunf, hm]

/-- Witness for C7 at a raised timeout. -/
theorem claimC7_witness :
    (fetch_violations (.err "HTTPSConnectionPool: Read timed out")
        "DOB ECB Violations").success = false ∧
    (fetch_violations (.err "HTTPSConnectionPool: Read timed out")
        "DOB ECB Violations").data = .arr [] ∧
    (fetch_violations (.err "HTTPSConnectionPool: Read timed out")
        "DOB ECB Violations").count = 0 ∧
    (∀ msg, FetchOutcome.err "HTTPSConnectionPool: Read timed out" = .err msg →
      (fetch_violations (.err "HTTPSConnectionPool: Read timed out")
        "DOB ECB Violations").error = some msg) ∧
    (∀ m, FetchOutcome.err "HTTPSConnectionPool: Read timed out" = .okObj m →
      (fetch_violations (.err "HTTPSConnectionPool: Read timed out")
        "DOB ECB Violations").error = some (pyStrObj m)) :=
  claimC7_fetch_envelope (.err "HTTPSConnectionPool: Read timed out")
    "DOB ECB Violations" (Or.inl ⟨"HTTPSConnectionPool: Read timed out", rfl⟩)

/-! ## C10: corrupt cache timestamps -/

theorem foldl_max_le_init (rest : List ℚ) (a : ℚ) : a ≤ rest.foldl max a := by
  induction rest generalizing a with
  | nil => exact le_refl a
  | cons b l ih => exact le_trans (le_max_left a b) (ih (max a b))

theorem mem_le_foldl_max (rest : List ℚ) (a x : ℚ) (hx : x ∈ rest) :
    x ≤ rest.foldl max a := by
  induction rest generalizing a with
  | nil => exact absurd hx (List.not_mem_nil x)
  | cons b l ih =>
    rcases List.mem_cons.mp hx with hxb | hxl
    · rw [hxb]
      exact le_trans (le_max_right a b) (foldl_max_le_init l (max a b))
    · exact ih (max a b) hxl

theorem le_pyMax_of_mem (xs : List ℚ) (d x : ℚ) (hx : x ∈ xs) : x ≤ pyMax xs d := by
  cases xs with
  | nil => exact absurd hx (List.not_mem_nil x)
  | cons a rest =>
    rcases List.mem_cons.mp hx with hxa | hxr
    · rw [hxa]
      exact foldl_max_le_init rest a
    · exact mem_le_foldl_max rest a x hxr

/-- C10: the age computation is total — a timestamp the ISO parser rejects
yields 9999 minutes instead of an exception — and 9999 exceeds the
1440-minute freshness threshold, so the gate declines the cache and takes
the refresh branch for a tenant owning such a row.  -/
theorem claimC10_corrupt_timestamp (parseIso : String → Option ℚ) (now : ℚ)
    (cache_rows : List CacheRow) (row : CacheRow) (force_refresh : Bool)
    (hmem : row ∈ cache_rows)
    (hbad : parseIso (row.fetched_at.replace "Z" "") = none) :
    cache_age_minutes parseIso now row.fetched_at = 9999 ∧
    (1440 : ℚ) < 9999 ∧
    useCacheB parseIso now cache_rows force_refresh = false := by
  have hage : cache_age_minutes parseIso now row.fetched_at = 9999 := by
    simp only [cache_age_minutes, hbad]
  refine ⟨hage, by decide, ?_⟩
  have h9 : (9999 : ℚ) ≤
      pyMax (cache_rows.map (fun r => cache_age_minutes parseIso now r.fetched_at)) 9999 := by
    refine le_pyMax_of_mem _ _ _ ?_
    rw [← hage]
    exact List.mem_map_of_mem (fun r => cache_age_minutes parseIso now r.fetched_at) hmem
  have hdec : decide
      (pyMax (cache_rows.map (fun r => cache_age_minutes parseIso now r.fetched_at)) 9999
        ≤ 1440) = false := by
    rw [decide_eq_false_iff_not]
    intro hle
    exact absurd (le_trans h9 hle) (by decide)
  simp only [useCacheB, hdec, Bool.and_false]

/-- Witness for C10: a single cache row with an unparseable timestamp. -/
theorem claimC10_witness :
    cache_age_minutes (fun _ => none) 0 "not-a-timestamp" = 9999 ∧
    (1440 : ℚ) < 9999 ∧
    useCacheB (fun _ => none) 0 [⟨"DOB ECB Violations", [], "not-a-timestamp"⟩] false
      = false :=
  claimC10_corrupt_timestamp (fun _ => none) 0
    [⟨"DOB ECB Violations", [], "not-a-timestamp"⟩]
    ⟨"DOB ECB Violations", [], "not-a-timestamp"⟩ false
    (List.mem_singleton.mpr rfl) rfl

/-! ## C5: serving from a fresh cache -/

theorem lookupD_bumpBy (m : Dict Nat) (k : String) (n : Nat) (c : String) :
    lookupD (bumpBy m k n) c = lookupD m c + (if c = k then n else 0) := by
  unfold bumpBy lookupD
  rw [dictLookup_dictInsert]
  by_cases h : c = k
  · subst h
    rw [if_pos rfl, if_pos rfl]
    rfl
  · rw [if_neg h, if_neg h, add_zero]

theorem lookupD_zero_of_all (m : Dict Nat) (c : String) (h : ∀ p ∈ m, p.2 = 0) :
    lookupD m c = 0 := by
  unfold lookupD dictLookup
  cases hf : m.find? (fun p => p.1 == c) with
  | none => rfl
  | some p => simp [h p (List.mem_of_find?_eq_some hf)]

theorem lookupD_initStatusCounts (c : String) : lookupD initStatusCounts c = 0 :=
  lookupD_zero_of_all _ _ (by decide)

theorem lookupD_initSummaryCounts (c : String) : lookupD initSummaryCounts c = 0 :=
  lookupD_zero_of_all _ _ (by decide)

theorem countClass_cons (c : String) (r : Rec) (rest : List Rec) :
    countClass c (r :: rest) =
      (if rget r "_status_class" "pending" = c then 1 else 0) + countClass c rest := by
  simp only [countClass, List.filter_cons]
  by_cases h : rget r "_status_class" "pending" = c
  · rw [if_pos (by simpa using h), if_pos h, List.length_cons]
    omega
  · rw [if_neg (by simpa using h), if_neg h, zero_add]

/-- Both counter dicts threaded through the per-record tally fold advance by
the class tallies of the records. -/
theorem tally_fold_lookupD (recs : List Rec) (st : Dict Nat × Dict Nat) (c : String) :
    lookupD (recs.foldl tallyStep st).1 c = lookupD st.1 c + countClass c recs ∧
    lookupD (recs.foldl tallyStep st).2 c = lookupD st.2 c + countClass c recs := by
  induction recs generalizing st with
  | nil => simp [countClass]
  | cons r rest ih =>
    rw [List.foldl_cons]
    have h := ih (tallyStep st r)
    have hstep1 : lookupD (tallyStep st r).1 c =
        lookupD st.1 c + (if c = rget r "_status_class" "pending" then 1 else 0) := by
      simp only [tallyStep]
      rw [lookupD_bumpBy]
    have hstep2 : lookupD (tallyStep st r).2 c =
        lookupD st.2 c + (if c = rget r "_status_class" "pending" then 1 else 0) := by
      simp only [tallyStep]
      rw [lookupD_bumpBy]
    rw [countClass_cons]
    constructor
    · rw [h.1, hstep1]
      by_cases hc : rget r "_status_class" "pending" = c
      · rw [if_pos hc, if_pos hc.symm]
        omega
      · rw [if_neg hc, if_neg (fun hcc => hc hcc.symm)]
        omega
    · rw [h.2, hstep2]
      by_cases hc : rget r "_status_class" "pending" = c
      · rw [if_pos hc, if_pos hc.symm]
        omega
      · rw [if_neg hc, if_neg (fun hcc => hc hcc.symm)]
        omega

theorem serveStep_summary_lookupD (st : Dict (List Rec) × Dict Nat × Dict SrcSummary)
    (kr : String × List Rec) (c : String) :
    lookupD (serveStep st kr).2.1 c =
      lookupD st.2.1 c + countClass c kr.2 + (if c = "total" then kr.2.length else 0) := by
  simp only [serveStep, tallyRecords]
  rw [lookupD_bumpBy, (tally_fold_lookupD kr.2 (initStatusCounts, st.2.1) c).2]

/-- The summary counters after the response-building fold: every class
counter advances by the class tally, and the "total" key additionally by the
record counts. -/
theorem serve_fold_summary (rows : List (String × List Rec))
    (st : Dict (List Rec) × Dict Nat × Dict SrcSummary) (c : String) :
    lookupD (rows.foldl serveStep st).2.1 c =
      lookupD st.2.1 c + sumCounts c rows + (if c = "total" then sumLens rows else 0) := by
  induction rows generalizing st with
  | nil => simp [sumCounts, sumLens]
  | cons kr rest ih =>
    rw [List.foldl_cons, ih (serveStep st kr), serveStep_summary_lookupD]
    simp only [sumCounts, sumLens, List.map_cons, List.sum_cons]
    by_cases hc : c = "total"
    · simp only [if_pos hc]
      omega
    · simp only [if_neg hc]
      omega

theorem serve_fold_results (rows : List (String × List Rec))
    (st : Dict (List Rec) × Dict Nat × Dict SrcSummary) :
    (rows.foldl serveStep st).1 =
      rows.foldl (fun m kr => dictInsert kr.1 kr.2 m) st.1 := by
  induction rows generalizing st with
  | nil => rfl
  | cons kr rest ih =>
    rw [List.foldl_cons, List.foldl_cons, ih (serveStep st kr)]
    rfl

theorem dictInsert_of_not_mem {α : Type} (m : Dict α) (k : String) (v : α)
    (h : k ∉ dictKeys m) : dictInsert k v m = m ++ [(k, v)] := by
  induction m with
  | nil => rfl
  | cons p rest ih =>
    rw [dictKeys_cons] at h
    have hp : p.1 ≠ k := fun hc => h (hc ▸ List.mem_cons_self _ _)
    have hr : k ∉ dictKeys rest := fun hc => h (List.mem_cons_of_mem _ hc)
    simp only [dictInsert, beq_iff_eq, hp, if_false]
    rw [ih hr]
    rfl

/-- Folding inserts of pairs with fresh, pairwise-distinct keys appends them
in order. -/
theorem foldl_dictInsert_eq_append {α : Type} (pairs : List (String × α))
    (acc : Dict α) (hd : ∀ p ∈ pairs, p.1 ∉ dictKeys acc)
    (hnd : (pairs.map (fun p => p.1)).Nodup) :
    pairs.foldl (fun m kr => dictInsert kr.1 kr.2 m) acc = acc ++ pairs := by
  induction pairs generalizing acc with
  | nil => simp
  | cons kr rest ih =>
    rw [List.foldl_cons,
        dictInsert_of_not_mem acc kr.1 kr.2 (hd kr (List.mem_cons_self _ _))]
    rw [List.map_cons, List.nodup_cons] at hnd
    have hd' : ∀ p ∈ rest, p.1 ∉ dictKeys (acc ++ [(kr.1, kr.2)]) := by
      intro p hp hmem
      unfold dictKeys at hmem
      rw [List.map_append, List.mem_append] at hmem
      rcases hmem with hmem | hmem
      · exact hd p (List.mem_cons_of_mem _ hp) hmem
      · rw [List.map_singleton, List.mem_singleton] at hmem
        exact hnd.1 (hmem ▸ List.mem_map_of_mem (fun q => q.1) hp)
    rw [ih (acc ++ [(kr.1, kr.2)]) hd' hnd.2, List.append_assoc]
    rfl

theorem serve_fold_by_source_preserve (rows : List (String × List Rec))
    (st : Dict (List Rec) × Dict Nat × Dict SrcSummary) (key : String)
    (h : key ∉ rows.map (fun p => p.1)) :
    dictLookup (rows.foldl serveStep st).2.2 key = dictLookup st.2.2 key := by
  induction rows generalizing st with
  | nil => rfl
  | cons kr rest ih =>
    rw [List.map_cons] at h
    have hk : key ≠ kr.1 := fun hc => h (hc ▸ List.mem_cons_self _ _)
    have hr : key ∉ rest.map (fun p => p.1) := fun hc => h (List.mem_cons_of_mem _ hc)
    rw [List.foldl_cons, ih (serveStep st kr) hr]
    simp only [serveStep]
    rw [dictLookup_dictInsert, if_neg hk]

/-- The by-source summary entry of a served (source, records) pair: the
record count plus a counter dict tallying that source's status classes. -/
theorem serve_fold_by_source (rows : List (String × List Rec))
    (st : Dict (List Rec) × Dict Nat × Dict SrcSummary) (key : String)
    (data : List Rec) (hnd : (rows.map (fun p => p.1)).Nodup)
    (hmem : (key, data) ∈ rows) :
    ∃ sc, dictLookup (rows.foldl serveStep st).2.2 key = some ⟨data.length, sc⟩ ∧
      ∀ c, lookupD sc c = countClass c data := by
  induction rows generalizing st with
  | nil => exact absurd hmem (List.not_mem_nil _)
  | cons kr rest ih =>
    rw [List.map_cons, List.nodup_cons] at hnd
    rw [List.foldl_cons]
    rcases List.mem_cons.mp hmem with hkr | hrest
    · have hkey : key ∉ rest.map (fun p => p.1) := by
        rw [← hkr] at hnd
        exact hnd.1
      rw [serve_fold_by_source_preserve rest (serveStep st kr) key hkey]
      refine ⟨(tallyRecords kr.2 st.2.1).1, ?_, ?_⟩
      · simp only [serveStep]
        rw [dictLookup_dictInsert, if_pos (by rw [← hkr]), ← hkr]
      · intro c
        rw [tallyRecords, (tally_fold_lookupD kr.2 (initStatusCounts, st.2.1) c).1,
            lookupD_initStatusCounts, zero_add, ← hkr]
    · exact ih (serveStep st kr) hnd.2 hrest

theorem buildCacheMap_go_nodup (cache_rows : List CacheRow) (m : Dict CacheRow)
    (h : (dictKeys m).Nodup) :
    (dictKeys (cache_rows.foldl (fun m r => dictInsert r.source r m) m)).Nodup := by
  induction cache_rows generalizing m with
  | nil => simpa using h
  | cons r rest ih =>
    rw [List.foldl_cons]
    exact ih _ (dictKeys_dictInsert_nodup _ _ _ h)

theorem buildCacheMap_keys_nodup (cache_rows : List CacheRow) :
    (dictKeys (buildCacheMap cache_rows)).Nodup :=
  buildCacheMap_go_nodup cache_rows [] (by simp [dictKeys])

theorem countClass_eq_zero (c : String) (recs : List Rec)
    (h : ∀ r ∈ recs, rget r "_status_class" "pending" ≠ c) :
    countClass c recs = 0 := by
  unfold countClass
  rw [List.length_eq_zero]
  rw [List.filter_eq_nil_iff]
  intro r hr
  simpa using h r hr

/-- C5: when the freshness gate accepts (all datasets cached, the oldest
entry at most 1440 minutes old, no force flag), `/api/all` performs no
upstream work — its result does not depend on the fetch effect at all and the
refresh flag stays false — serves exactly the cached arrays, and its summary
counters equal the `_status_class` tallies of the cached records, per source
and overall, with the overall total equal to the cached record count. -/
theorem claimC5_fresh_cache (parseIso : String → Option ℚ) (now : ℚ) (nowTs : String)
    (fetch : String → FetchOutcome) (binFetch : List String → BinAddrMap)
    (domain : String) (cache_rows : List CacheRow)
    (hfresh : useCacheB parseIso now cache_rows false = true) :
    ∃ resp : AllResponse,
      get_all_violations parseIso now nowTs fetch binFetch domain cache_rows false
        = some (false, resp) ∧
      resp.from_cache = true ∧
      resp.cached_at = pyMinStr (cache_rows.map (fun r => r.fetched_at)) ∧
      resp.results = (buildCacheMap cache_rows).map (fun p => (p.1, p.2.data)) ∧
      (∀ c, lookupD resp.summary_counts c =
        sumCounts c ((buildCacheMap cache_rows).map (fun p => (p.1, p.2.data))) +
        (if c = "total" then
          sumLens ((buildCacheMap cache_rows).map (fun p => (p.1, p.2.data))) else 0)) ∧
      ((∀ p ∈ buildCacheMap cache_rows, ∀ r ∈ p.2.data,
          rget r "_status_class" "pending" ≠ "total") →
        lookupD resp.summary_counts "total" =
          sumLens ((buildCacheMap cache_rows).map (fun p => (p.1, p.2.data)))) ∧
      (∀ key row, dictLookup (buildCacheMap cache_rows) key = some row →
        ∃ sc, dictLookup resp.by_source key = some ⟨row.data.length, sc⟩ ∧
          ∀ c, lookupD sc c = countClass c row.data) := by
  have hkeys : ((buildCacheMap cache_rows).map (fun p => (p.1, p.2.data))).map
      (fun q => q.1) = dictKeys (buildCacheMap cache_rows) := by
    rw [List.map_map]
    rfl
  have hnd : (((buildCacheMap cache_rows).map (fun p => (p.1, p.2.data))).map
      (fun q => q.1)).Nodup := by
    rw [hkeys]
    exact buildCacheMap_keys_nodup cache_rows
  have hsummary : ∀ c,
      lookupD (serveRows ((buildCacheMap cache_rows).map (fun p => (p.1, p.2.data)))).2.1 c =
        sumCounts c ((buildCacheMap cache_rows).map (fun p => (p.1, p.2.data))) +
        (if c = "total" then
          sumLens ((buildCacheMap cache_rows).map (fun p => (p.1, p.2.data))) else 0) := by
    intro c
    rw [serveRows, serve_fold_summary, lookupD_initSummaryCounts, zero_add]
  refine ⟨⟨(serveRows ((buildCacheMap cache_rows).map (fun p => (p.1, p.2.data)))).1,
          (serveRows ((buildCacheMap cache_rows).map (fun p => (p.1, p.2.data)))).2.1,
          (serveRows ((buildCacheMap cache_rows).map (fun p => (p.1, p.2.data)))).2.2,
          true, pyMinStr (cache_rows.map (fun r => r.fetched_at))⟩,
        by simp only [get_all_violations, hfresh, if_true], rfl, rfl, ?_, ?_, ?_, ?_⟩
  · -- served results are exactly the cached arrays
    rw [serveRows, serve_fold_results,
        foldl_dictInsert_eq_append _ [] (by intro p _ hmem; simp [dictKeys] at hmem) hnd,
        List.nil_append]
  · exact hsummary
  · -- overall total when no cached record carries the class "total"
    intro hno
    rw [hsummary "total", if_pos rfl]
    have hz : sumCounts "total" ((buildCacheMap cache_rows).map (fun p => (p.1, p.2.data))) = 0 := by
      unfold sumCounts
      refine List.sum_eq_zero ?_
      intro x hx
      rcases List.mem_map.mp hx with ⟨kr, hkr, rfl⟩
      rcases List.mem_map.mp hkr with ⟨p, hp, rfl⟩
      exact countClass_eq_zero _ _ (hno p hp)
    rw [hz, zero_add]
  · -- per-source summary entries
    intro key row hlook
    exact serve_fold_by_source _ ([], initSummaryCounts, []) key row.data hnd
      (List.mem_map_of_mem (fun p => (p.1, p.2.data)) (lookup_mem _ _ _ hlook))

/-- Witness for C5 on a concrete three-dataset cache, zero ages, and a fetch
effect that would fail if it were ever consulted. -/
theorem claimC5_witness :
    ∃ resp : AllResponse,
      get_all_violations (fun _ => some 0) 0 "ts" (fun _ => .err "down") (fun _ => [])
        "domaincos.com" sampleCacheRows false = some (false, resp) ∧
      resp.from_cache = true ∧
      resp.cached_at = pyMinStr (sampleCacheRows.map (fun r => r.fetched_at)) ∧
      resp.results = (buildCacheMap sampleCacheRows).map (fun p => (p.1, p.2.data)) ∧
      (∀ c, lookupD resp.summary_counts c =
        sumCounts c ((buildCacheMap sampleCacheRows).map (fun p => (p.1, p.2.data))) +
        (if c = "total" then
          sumLens ((buildCacheMap sampleCacheRows).map (fun p => (p.1, p.2.data))) else 0)) ∧
      ((∀ p ∈ buildCacheMap sampleCacheRows, ∀ r ∈ p.2.data,
          rget r "_status_class" "pending" ≠ "total") →
        lookupD resp.summary_counts "total" =
          sumLens ((buildCacheMap sampleCacheRows).map (fun p => (p.1, p.2.data)))) ∧
      (∀ key row, dictLookup (buildCacheMap sampleCacheRows) key = some row →
        ∃ sc, dictLookup resp.by_source key = some ⟨row.data.length, sc⟩ ∧
          ∀ c, lookupD sc c = countClass c row.data) :=
  claimC5_fresh_cache (fun _ => some 0) 0 "ts" (fun _ => .err "down") (fun _ => [])
    "domaincos.com" sampleCacheRows
    (by simp [useCacheB, sampleCacheRows, buildCacheMap, dictInsert, pyMax,
              cache_age_minutes, DATASETS])

/-! ## C6: partial failure in a refresh cycle -/

theorem dbLookup_cons (r : CacheRow) (db : List CacheRow) (k : String) :
    dbLookup (r :: db) k = if r.source = k then some r else dbLookup db k := by
  by_cases h : r.source = k
  · rw [if_pos h]
    unfold dbLookup
    rw [List.find?_cons_of_pos _ (by simp [h])]
  · rw [if_neg h]
    unfold dbLookup
    rw [List.find?_cons_of_neg _ (by simp [h])]

theorem dbLookup_dbUpsert (db : List CacheRow) (key : String) (data : List Rec)
    (nowTs k' : String) :
    dbLookup (dbUpsert key data nowTs db) k' =
      if k' = key then some ⟨key, data, nowTs⟩ else dbLookup db k' := by
  induction db with
  | nil =>
    show dbLookup [⟨key, data, nowTs⟩] k' = _
    rw [dbLookup_cons]
    by_cases h : k' = key
    · simp [h]
    · rw [if_neg (fun hh => h hh.symm), if_neg h]
  | cons r rest ih =>
    by_cases hr : r.source = key
    · have h1 : dbUpsert key data nowTs (r :: rest) = ⟨key, data, nowTs⟩ :: rest := by
        simp [dbUpsert, hr]
      rw [h1, dbLookup_cons, dbLookup_cons]
      by_cases h : k' = key
      · rw [if_pos h, if_pos h.symm]
      · rw [if_neg (fun hh => h hh.symm), if_neg h,
            if_neg (fun hh => h ((hr.symm.trans hh).symm))]
    · have h1 : dbUpsert key data nowTs (r :: rest) = r :: dbUpsert key data nowTs rest := by
        simp [dbUpsert, hr]
      rw [h1, dbLookup_cons, dbLookup_cons, ih]
      by_cases hrk : r.source = k'
      · rw [if_pos hrk, if_pos hrk,
            if_neg (fun hh : k' = key => hr (hrk.trans hh))]
      · rw [if_neg hrk, if_neg hrk]

theorem dbUpsert_sources (db : List CacheRow) (key : String) (data : List Rec)
    (nowTs : String) :
    (dbUpsert key data nowTs db).map (fun r => r.source) =
      if key ∈ db.map (fun r => r.source) then db.map (fun r => r.source)
      else db.map (fun r => r.source) ++ [key] := by
  induction db with
  | nil => simp [dbUpsert]
  | cons r rest ih =>
    by_cases hr : r.source = key
    · have h1 : dbUpsert key data nowTs (r :: rest) = ⟨key, data, nowTs⟩ :: rest := by
        simp [dbUpsert, hr]
      have h2 : key ∈ (r :: rest).map (fun r => r.source) := by
        rw [List.map_cons, hr]
        exact List.mem_cons_self _ _
      rw [h1, if_pos h2, List.map_cons, List.map_cons, hr]
    · have h1 : dbUpsert key data nowTs (r :: rest) = r :: dbUpsert key data nowTs rest := by
        simp [dbUpsert, hr]
      rw [h1, List.map_cons]
      by_cases hk : key ∈ rest.map (fun r => r.source)
      · have h2 : key ∈ (r :: rest).map (fun r => r.source) := by
          rw [List.map_cons]
          exact List.mem_cons_of_mem _ hk
        rw [if_pos h2, ih, if_pos hk, List.map_cons]
      · have h2 : key ∉ (r :: rest).map (fun r => r.source) := by
          rw [List.map_cons]
          intro hmem
          rcases List.mem_cons.mp hmem with h | h
          · exact hr h.symm
          · exact hk h
        rw [if_neg h2, ih, if_neg hk, List.map_cons]
        rfl

theorem dbUpsert_sources_nodup (db : List CacheRow) (key : String)
    (data : List Rec) (nowTs : String) (h : (db.map (fun r => r.source)).Nodup) :
    ((dbUpsert key data nowTs db).map (fun r => r.source)).Nodup := by
  rw [dbUpsert_sources]
  by_cases hk : key ∈ db.map (fun r => r.source)
  · rwa [if_pos hk]
  · rw [if_neg hk]
    refine List.Nodup.append h (List.nodup_singleton key) ?_
    intro a ha hb
    rw [List.mem_singleton] at hb
    exact hk (hb ▸ ha)

/-- One refresh step on a failed fetch: skip, cache unchanged. -/
theorem refreshKeys_cons_fail (fetch : String → FetchOutcome)
    (binFetch : List String → BinAddrMap) (domain nowTs key : String)
    (rest : List String) (st : List CacheRow × List ChangeEvent)
    (hfail : (fetch_violations (fetch key) key).success = false) :
    refreshKeys fetch binFetch domain nowTs (key :: rest) st =
      refreshKeys fetch binFetch domain nowTs rest st := by
  simp only [refreshKeys, hfail, Bool.false_eq_true, if_false]

/-- One refresh step on a successful array fetch: enrich, diff, upsert. -/
theorem refreshKeys_cons_arr (fetch : String → FetchOutcome)
    (binFetch : List String → BinAddrMap) (domain nowTs key : String)
    (rest : List String) (st : List CacheRow × List ChangeEvent)
    (ds : DsConfig) (records : List Rec)
    (hds : dictLookup DATASETS key = some ds)
    (hsucc : (fetch_violations (fetch key) key).success = true)
    (hdata : (fetch_violations (fetch key) key).data = .arr records) :
    refreshKeys fetch binFetch domain nowTs (key :: rest) st =
      refreshKeys fetch binFetch domain nowTs rest
        (dbUpsert key (enrich_records binFetch ds key records) nowTs st.1,
         st.2 ++ detect_and_save_changes domain key (cachedData st.1 key)
           (enrich_records binFetch ds key records)) := by
  simp only [refreshKeys, hsucc, if_true, hds, hdata]

/-- One refresh step on a successful fetch decoding to an empty object:
iterating it enriches nothing. -/
theorem refreshKeys_cons_obj_nil (fetch : String → FetchOutcome)
    (binFetch : List String → BinAddrMap) (domain nowTs key : String)
    (rest : List String) (st : List CacheRow × List ChangeEvent)
    (ds : DsConfig)
    (hds : dictLookup DATASETS key = some ds)
    (hsucc : (fetch_violations (fetch key) key).success = true)
    (hdata : (fetch_violations (fetch key) key).data = .obj []) :
    refreshKeys fetch binFetch domain nowTs (key :: rest) st =
      refreshKeys fetch binFetch domain nowTs rest
        (dbUpsert key (enrich_records binFetch ds key []) nowTs st.1,
         st.2 ++ detect_and_save_changes domain key (cachedData st.1 key)
           (enrich_records binFetch ds key [])) := by
  simp only [refreshKeys, hsucc, if_true, hds, hdata, List.isEmpty_nil]

/-- The refresh loop over well-formed outcomes: it completes, every
processed dataset whose fetch succeeded holds its freshly enriched records,
every processed dataset whose fetch failed keeps its prior cache entry,
unprocessed keys are untouched, and source-uniqueness of the cache table is
preserved. -/
theorem refreshKeys_spec (fetch : String → FetchOutcome)
    (binFetch : List String → BinAddrMap) (domain nowTs : String)
    (keys : List String) (st : List CacheRow × List ChangeEvent)
    (hnd : keys.Nodup)
    (hwf : ∀ k ∈ keys, wellFormedOutcome (fetch k) ∧ (dictLookup DATASETS k).isSome) :
    ∃ st', refreshKeys fetch binFetch domain nowTs keys st = some st' ∧
      (∀ key ds, key ∈ keys → dictLookup DATASETS key = some ds →
        dbLookup st'.1 key =
          (if (fetch_violations (fetch key) key).success then
            some ⟨key, enrich_records binFetch ds key
              (successRecords (fetch_violations (fetch key) key).data), nowTs⟩
          else dbLookup st.1 key)) ∧
      (∀ key, key ∉ keys → dbLookup st'.1 key = dbLookup st.1 key) ∧
      ((st.1.map (fun r => r.source)).Nodup → (st'.1.map (fun r => r.source)).Nodup) := by
  induction keys generalizing st with
  | nil =>
    refine ⟨st, rfl, ?_, fun _ _ => rfl, fun h => h⟩
    intro key ds hkey
    exact absurd hkey (List.not_mem_nil key)
  | cons key0 rest ih =>
    rw [List.nodup_cons] at hnd
    obtain ⟨hwf0, hsome0⟩ := hwf key0 (List.mem_cons_self _ _)
    obtain ⟨ds0, hds0⟩ := Option.isSome_iff_exists.mp hsome0
    have hwf' : ∀ k ∈ rest, wellFormedOutcome (fetch k) ∧ (dictLookup DATASETS k).isSome :=
      fun k hk => hwf k (List.mem_cons_of_mem _ hk)
    -- continuation for a failed head fetch: the state is threaded unchanged
    have contFail : (fetch_violations (fetch key0) key0).success = false →
        refreshKeys fetch binFetch domain nowTs (key0 :: rest) st =
          refreshKeys fetch binFetch domain nowTs rest st →
        ∃ st', refreshKeys fetch binFetch domain nowTs (key0 :: rest) st = some st' ∧
          (∀ key ds, key ∈ key0 :: rest → dictLookup DATASETS key = some ds →
            dbLookup st'.1 key =
              (if (fetch_violations (fetch key) key).success then
                some ⟨key, enrich_records binFetch ds key
                  (successRecords (fetch_violations (fetch key) key).data), nowTs⟩
              else dbLookup st.1 key)) ∧
          (∀ key, key ∉ key0 :: rest → dbLookup st'.1 key = dbLookup st.1 key) ∧
          ((st.1.map (fun r => r.source)).Nodup → (st'.1.map (fun r => r.source)).Nodup) := by
      intro hfail hstep
      obtain ⟨st', hrun, hin, hnotin, hnd'⟩ := ih st hnd.2 hwf'
      refine ⟨st', hstep.trans hrun, ?_, ?_, hnd'⟩
      · intro key ds hkey hds
        rcases List.mem_cons.mp hkey with rfl | hkeyr
        · rw [hnotin key hnd.1, if_neg (by rw [hfail]; exact Bool.false_ne_true)]
        · exact hin key ds hkeyr hds
      · intro key hk
        exact hnotin key (fun h => hk (List.mem_cons_of_mem _ h))
    -- continuation for a successful head fetch: the head's entry is upserted
    have contSucc : ∀ (ds0' : DsConfig) (records' : List Rec),
        dictLookup DATASETS key0 = some ds0' →
        (fetch_violations (fetch key0) key0).success = true →
        successRecords (fetch_violations (fetch key0) key0).data = records' →
        refreshKeys fetch binFetch domain nowTs (key0 :: rest) st =
          refreshKeys fetch binFetch domain nowTs rest
            (dbUpsert key0 (enrich_records binFetch ds0' key0 records') nowTs st.1,
             st.2 ++ detect_and_save_changes domain key0 (cachedData st.1 key0)
               (enrich_records binFetch ds0' key0 records')) →
        ∃ st', refreshKeys fetch binFetch domain nowTs (key0 :: rest) st = some st' ∧
          (∀ key ds, key ∈ key0 :: rest → dictLookup DATASETS key = some ds →
            dbLookup st'.1 key =
              (if (fetch_violations (fetch key) key).success then
                some ⟨key, enrich_records binFetch ds key
                  (successRecords (fetch_violations (fetch key) key).data), nowTs⟩
              else dbLookup st.1 key)) ∧
          (∀ key, key ∉ key0 :: rest → dbLookup st'.1 key = dbLookup st.1 key) ∧
          ((st.1.map (fun r => r.source)).Nodup → (st'.1.map (fun r => r.source)).Nodup) := by
      intro ds0' records' hds0' hsucc hrecs hstep
      obtain ⟨st', hrun, hin, hnotin, hnd'⟩ := ih
        (dbUpsert key0 (enrich_records binFetch ds0' key0 records') nowTs st.1,
         st.2 ++ detect_and_save_changes domain key0 (cachedData st.1 key0)
           (enrich_records binFetch ds0' key0 records')) hnd.2 hwf'
      refine ⟨st', hstep.trans hrun, ?_, ?_,
        fun h => hnd' (dbUpsert_sources_nodup _ _ _ _ h)⟩
      · intro key ds hkey hds
        rcases List.mem_cons.mp hkey with rfl | hkeyr
        · rw [hnotin key hnd.1, dbLookup_dbUpsert, if_pos rfl, if_pos hsucc]
          have hdseq : ds = ds0' := Option.some.inj (hds.symm.trans hds0')
          rw [hdseq, hrecs]
        · rw [hin key ds hkeyr hds, dbLookup_dbUpsert,
              if_neg (fun hc : key = key0 => hnd.1 (hc ▸ hkeyr))]
      · intro key hk
        have hk0 : key ≠ key0 := fun hc => hk (hc ▸ List.mem_cons_self _ _)
        rw [hnotin key (fun h => hk (List.mem_cons_of_mem _ h)), dbLookup_dbUpsert,
            if_neg hk0]
    cases hout : fetch key0 with
    | err msg =>
      exact contFail (by rw [hout]; rfl)
        (refreshKeys_cons_fail fetch binFetch domain nowTs key0 rest st (by rw [hout]; rfl))
    | okArr records =>
      exact contSucc ds0 records hds0 (by rw [hout]; rfl) (by rw [hout]; rfl)
        (refreshKeys_cons_arr fetch binFetch domain nowTs key0 rest st ds0 records hds0
          (by rw [hout]; rfl) (by rw [hout]; rfl))
    | okObj m =>
      rw [hout] at hwf0
      by_cases herr : (dictLookup m "error").isSome = true
      · have hfail : (fetch_violations (fetch key0) key0).success = false := by
          rw [hout]
          simp [fetch_violations, herr]
        exact contFail hfail
          (refreshKeys_cons_fail fetch binFetch domain nowTs key0 rest st hfail)
      · have hm : m = [] := by
          rcases hwf0 with h | h
          · exact absurd h herr
          · exact h
        subst hm
        have hsucc : (fetch_violations (fetch key0) key0).success = true := by
          rw [hout]
          simp [fetch_violations, dictLookup]
        have hdata : (fetch_violations (fetch key0) key0).data = .obj [] := by
          rw [hout]
          simp [fetch_violations, dictLookup]
        exact contSucc ds0 [] hds0 hsucc (by rw [hdata]; rfl)
          (refreshKeys_cons_obj_nil fetch binFetch domain nowTs key0 rest st ds0 hds0
            hsucc hdata)

theorem datasets_isSome : ∀ k ∈ allDatasetKeys, (dictLookup DATASETS k).isSome := by
  decide

/-- Counterexample to C6 as stated: with an empty cache, a refresh in which
only the "DOB ECB Violations" fetch fails produces an aggregate response
with two result entries instead of one per known dataset (three) — the
failed dataset is missing from the response, not present as an empty entry. -/
theorem claimC6_counterexample :
    (get_all_violations (fun _ => none) 0 "2024-01-01 00:00:00"
        (fun k => if k == "DOB ECB Violations" then .err "connection timed out"
                  else .okArr [])
        (fun _ => []) "domaincos.com" [] true).map
      (fun r => r.2.results.map (fun p => p.1)) =
      some ["OATH Hearings (DOT / All Agencies)", "DOT Street Construction Permits"] ∧
    (get_all_violations (fun _ => none) 0 "2024-01-01 00:00:00"
        (fun k => if k == "DOB ECB Violations" then .err "connection timed out"
                  else .okArr [])
        (fun _ => []) "domaincos.com" [] true).map
      (fun r => dictLookup r.2.results "DOB ECB Violations") = some none ∧
    allDatasetKeys.length = 3 := by
  refine ⟨?_, ?_, ?_⟩ <;> decide

/-- C6 as amended: a failed fetch for one dataset does not block the others
— every dataset whose fetch succeeds gets its cache entry replaced by its
freshly enriched records while a failed dataset keeps its prior entry (or
stays absent) — and the aggregate response has exactly one entry per dataset
present in the cache after the cycle, so a dataset that failed and was never
cached is missing rather than present-but-empty. -/
theorem claimC6_amended (parseIso : String → Option ℚ) (now : ℚ) (nowTs : String)
    (fetch : String → FetchOutcome) (binFetch : List String → BinAddrMap)
    (domain key : String) (ds : DsConfig) (db : List CacheRow)
    (hwf : ∀ k ∈ allDatasetKeys, wellFormedOutcome (fetch k))
    (hkey : key ∈ allDatasetKeys)
    (hds : dictLookup DATASETS key = some ds) :
    ∃ st, refresh_domain fetch binFetch domain nowTs db = some st ∧
      dbLookup st.1 key =
        (if (fetch_violations (fetch key) key).success then
          some ⟨key, enrich_records binFetch ds key
            (successRecords (fetch_violations (fetch key) key).data), nowTs⟩
        else dbLookup db key) ∧
      ∃ resp, get_all_violations parseIso now nowTs fetch binFetch domain db true
          = some (true, resp) ∧
        ((db.map (fun r => r.source)).Nodup →
          resp.results = st.1.map (fun r => (r.source, r.data))) := by
  obtain ⟨st, hrun, hin, _, hnodup⟩ := refreshKeys_spec fetch binFetch domain nowTs
    allDatasetKeys (db, []) (by decide)
    (fun k hk => ⟨hwf k hk, datasets_isSome k hk⟩)
  have hrd : refresh_domain fetch binFetch domain nowTs db = some st := hrun
  have hforce : useCacheB parseIso now db true = false := by
    simp [useCacheB]
  refine ⟨st, hrd, hin key ds hkey hds, ?_⟩
  refine ⟨⟨(serveRows (st.1.map (fun r => (r.source, r.data)))).1,
          (serveRows (st.1.map (fun r => (r.source, r.data)))).2.1,
          (serveRows (st.1.map (fun r => (r.source, r.data)))).2.2,
          false, none⟩, ?_, ?_⟩
  · simp only [get_all_violations, hforce, Bool.false_eq_true, if_false, hrd]
  · intro hdbnd
    have hstnd : (st.1.map (fun r => r.source)).Nodup := hnodup hdbnd
    have hkeys : (st.1.map (fun r => (r.source, r.data))).map (fun q => q.1) =
        st.1.map (fun r => r.source) := by
      rw [List.map_map]
      rfl
    rw [serveRows, serve_fold_results,
        foldl_dictInsert_eq_append _ [] (by intro p _ hmem; simp [dictKeys] at hmem)
          (by rw [hkeys]; exact hstnd),
        List.nil_append]

/-- Witness for the amended C6: every fetch raises, so every dataset keeps
its prior cache entry and the response serves the prior cache. -/
theorem claimC6_witness :
    ∃ st, refresh_domain (fun _ => .err "down") (fun _ => []) "domaincos.com"
        "2024-01-02 00:00:00" sampleCacheRows = some st ∧
      dbLookup st.1 "DOB ECB Violations" =
        (if (fetch_violations ((fun _ => FetchOutcome.err "down") "DOB ECB Violations")
              "DOB ECB Violations").success then
          some ⟨"DOB ECB Violations",
            enrich_records (fun _ => []) ecbConfig "DOB ECB Violations"
              (successRecords (fetch_violations
                ((fun _ => FetchOutcome.err "down") "DOB ECB Violations")
                "DOB ECB Violations").data), "2024-01-02 00:00:00"⟩
        else dbLookup sampleCacheRows "DOB ECB Violations") ∧
      ∃ resp, get_all_violations (fun _ => some 0) 0 "2024-01-02 00:00:00"
          (fun _ => .err "down") (fun _ => []) "domaincos.com" sampleCacheRows true
          = some (true, resp) ∧
        ((sampleCacheRows.map (fun r => r.source)).Nodup →
          resp.results = st.1.map (fun r => (r.source, r.data))) :=
  claimC6_amended (fun _ => some 0) 0 "2024-01-02 00:00:00" (fun _ => .err "down")
    (fun _ => []) "domaincos.com" "DOB ECB Violations" ecbConfig sampleCacheRows
    (fun k _ => trivial) (by decide) rfl

end VCC
